import Mathlib

/-!
Shallow embedding of the request-orchestration pipeline of the `rag_demo`
repository (src/src/nodes: fusion.py, reranker.py, retrievers.py, cache.py,
generator.py, plus src/src/config.py and src/src/state.py), together with
theorems settling the frozen claims about it.

Modelling conventions:
* Python floats in the RRF computation are modelled by `ℚ` (the code only
  adds and compares terms `1/(60+rank)` with `rank ∈ [1,5]`).
* `hash(page_content)` (used as a deduplication key when `chunk_id` is
  absent) is modelled injectively: the key of a chunk is either its
  `chunk_id` (a Python `str`) or its content (standing for the `int` hash of
  the content); string keys and int keys never collide in Python.
* Python's `sorted(..., key=f, reverse=True)` is a stable descending sort:
  it is modelled by `List.insertionSort` with the relation
  `fun a b => f b ≤ f a`, which places an element before exactly the
  later-seen elements of equal key, i.e. preserves first-seen order on ties.
* Exceptions and LLM calls are modelled by explicit `Option`-shaped inputs:
  `none` stands for a raised exception, `some v` for a normal return.
-/

/-- `TOP_K_FUSION = 15` from src/config.py: cap after RRF fusion. -/
def TOP_K_FUSION : Nat := 15

/-- `TOP_K_FINAL = 5` from src/config.py: per-retrieval-call `k` and
post-rerank cap. -/
def TOP_K_FINAL : Nat := 5

/-- A langchain `Document` as the pipeline uses it: `page_content` plus the
single piece of metadata the core reads, `metadata["chunk_id"]`
(absent ⇒ `none`). -/
structure Document where
  chunk_id : Option String
  page_content : String
deriving DecidableEq, Repr

/-- The type of deduplication keys: a `chunk_id` string, or (when `chunk_id`
is absent) the Python `hash` of the content, modelled injectively by the
content itself.  String keys and int-hash keys never collide in Python. -/
inductive DKey where
  | id (cid : String)
  | hashOf (content : String)
deriving DecidableEq, Repr

/-- Deduplication key of a document:
`doc.metadata.get("chunk_id", hash(doc.page_content))`. -/
def dedupKey (d : Document) : DKey :=
  match d.chunk_id with
  | some cid => DKey.id cid
  | none => DKey.hashOf d.page_content

/-- One step of the accumulation loop of `fuse_docs` (fusion.py lines 16-24):
updates the `rrf_scores` defaultdict and the first-seen `doc_map` for the
chunk at flat index `p.1`. -/
def fuseStep (k : ℚ) (acc : (DKey → ℚ) × List Document)
    (p : Nat × Document) : (DKey → ℚ) × List Document :=
  let doc_id := dedupKey p.2
  let rank : Nat := p.1 % TOP_K_FINAL + 1
  (fun key => if key = doc_id then acc.1 key + 1 / (k + (rank : ℚ)) else acc.1 key,
   if acc.2.any (fun d => dedupKey d = doc_id) then acc.2 else acc.2 ++ [p.2])

/-- `fuse_docs` (fusion.py): RRF-fuse the flat candidate list, sort the
deduplicated docs by descending accumulated score (Python's stable
`sorted(..., reverse=True)`), keep the first `TOP_K_FUSION`. -/
def fuse_docs (all_docs : List Document) (k : ℚ := 60) : List Document :=
  let res := all_docs.enum.foldl (fuseStep k) (fun _ => 0, [])
  let rrf_scores := res.1
  let doc_map := res.2
  let context := doc_map.insertionSort
    (fun a b => rrf_scores (dedupKey b) ≤ rrf_scores (dedupKey a))
  context.take TOP_K_FUSION

/-- Spec-side accumulated RRF score of a key: the sum, over every occurrence
of the key in the flat candidate list, of `1 / (k + rank)` with
`rank = (idx % TOP_K_FINAL) + 1`. -/
def rrfScoreSpec (all_docs : List Document) (k : ℚ) (key : DKey) : ℚ :=
  ((all_docs.enum.filter (fun p => dedupKey p.2 = key)).map
    (fun p => 1 / (k + ((p.1 % TOP_K_FINAL + 1 : Nat) : ℚ)))).sum

/-- Spec-side deduplication keeping the first-seen document per key, given
the keys already seen. -/
def dedupFirstSeenAux (seen : List DKey) : List Document → List Document
  | [] => []
  | d :: rest =>
    if dedupKey d ∈ seen then dedupFirstSeenAux seen rest
    else d :: dedupFirstSeenAux (dedupKey d :: seen) rest

/-- Spec-side deduplication keeping the first-seen document per key. -/
def dedupFirstSeen (l : List Document) : List Document := dedupFirstSeenAux [] l

/-- Python list indexing `docs[i]` with a possibly negative `i`:
`some` the selected element, `none` when the access raises `IndexError`. -/
def pyGet (docs : List Document) (i : Int) : Option Document :=
  if 0 ≤ i then docs.get? i.toNat
  else if 0 ≤ (docs.length : Int) + i then docs.get? ((docs.length : Int) + i).toNat
  else none

/-- The list comprehension `[docs[i] for i in ids if i < len(docs)]` body:
`none` when some retained index raises `IndexError` (aborting the whole
comprehension), `some` the built list otherwise. -/
def mapOpt (f : Int → Option Document) : List Int → Option (List Document)
  | [] => some []
  | i :: t =>
    match f i, mapOpt f t with
    | some d, some ds => some (d :: ds)
    | _, _ => none

/-- `rerank_docs` (reranker.py lines 98-118), as a function of the fused
candidates `docs` (the state's `context`) and the structured LLM outcome:
`none` models the rerank call raising, `some ids` a returned
`selected_ids` list.  The selection is truncated to `TOP_K_FINAL`, indices
`≥ len(docs)` are discarded, an `IndexError` from a surviving very negative
index is caught by the same `except` as an LLM failure, and an empty
selection falls back to the first `TOP_K_FINAL` candidates. -/
def rerank_docs (docs : List Document) (llm : Option (List Int)) : List Document :=
  match llm with
  | none => docs.take TOP_K_FINAL
  | some ids =>
    let selected_ids := ids.take TOP_K_FINAL
    match mapOpt (pyGet docs) (selected_ids.filter (fun i => i < (docs.length : Int))) with
    | none => docs.take TOP_K_FINAL
    | some reranked_docs =>
      if reranked_docs.isEmpty then docs.take TOP_K_FINAL else reranked_docs

/-- A langgraph `Send(node, {"question": query})` as produced by
`send_all_queries` (retrievers.py lines 31-42). -/
structure SendOp where
  node : String
  question : String
deriving DecidableEq, Repr

/-- `send_all_queries` (retrievers.py): for every rewritten query plus the
original question, dispatch one vector-retrieval and one BM25-retrieval
task. -/
def send_all_queries (rewritten_queries : List String) (question : String) : List SendOp :=
  let queries := rewritten_queries ++ [question]
  queries.flatMap (fun query =>
    [SendOp.mk "retrieve_vector" query, SendOp.mk "retrieve_bm25" query])

/-- `retrieve_vector` (retrievers.py lines 9-16): dense similarity search
with `k = TOP_K_FINAL`, the backend passed explicitly. -/
def retrieve_vector (similarity_search : String → Nat → List Document)
    (question : String) : List Document :=
  similarity_search question TOP_K_FINAL

/-- `retrieve_bm25` (retrievers.py lines 20-27): lexical search with
`k = TOP_K_FINAL`, the backend passed explicitly. -/
def retrieve_bm25 (lexical_search : String → Nat → List Document)
    (question : String) : List Document :=
  lexical_search question TOP_K_FINAL

/-- A successfully `json.loads`-parsed Q&A log record, with the defaults of
`log_entry.get`: `question`/`answer` default to `""`, `citations` to `[]`. -/
structure LogEntry where
  question : String
  answer : String
  citations : List String
deriving DecidableEq, Repr

/-- One line of a `qa_log_*.jsonl` partition: `none` is a malformed
(non-JSON) line, `some e` a parsed record. -/
abbrev LogLine := Option LogEntry

/-- Python's `str.strip()` on a character list: drop leading and trailing
whitespace. -/
def pyStrip (l : List Char) : List Char :=
  ((l.dropWhile Char.isWhitespace).reverse.dropWhile Char.isWhitespace).reverse

/-- Python's `s.strip().lower()` used for the cache's question comparison
(ASCII case folding). -/
def pyNorm (s : String) : String := ⟨(pyStrip s.data).map Char.toLower⟩

/-- The cached-answer message built by `check_cache` (cache.py lines 45-52):
the logged answer, a `"Sources:"` block listing the logged citations joined
by `";\n"` when there are any, and the `"[Cached Response]"` prefix. -/
def formatCachedAnswer (answer : String) (citations : List String) : String :=
  let answer_text :=
    if citations.isEmpty then answer
    else answer ++ "\n\nSources:\n" ++ String.intercalate ";\n" citations
  "[Cached Response]\n\n" ++ answer_text

/-- The inner loop of `check_cache` over the lines of one log file:
malformed lines are skipped, the first record whose logged question is
strip-lower-equal to the input question is returned. -/
def scanPartition (question : String) : List LogLine → Option LogEntry
  | [] => none
  | none :: rest => scanPartition question rest
  | some e :: rest =>
    if pyNorm e.question = pyNorm question then some e
    else scanPartition question rest

/-- The outer loop of `check_cache` over the log partitions (already in scan
order, i.e. sorted newest first): return the first match. -/
def scanStore (question : String) : List (List LogLine) → Option LogEntry
  | [] => none
  | p :: rest =>
    match scanPartition question p with
    | some e => some e
    | none => scanStore question rest

/-- The state update returned by `check_cache`: `cache_hit = none` models
the key being absent from the returned dict (the missing-log-directory
path returns only `{"question": question}`). -/
structure CacheResult where
  question : String
  message : Option String
  cache_hit : Option Bool
deriving DecidableEq, Repr

/-- `check_cache` (cache.py lines 8-73) over an abstract log store:
`log_dir = none` models a missing `logs/` directory, `some partitions` its
files in scan order. -/
def check_cache (log_dir : Option (List (List LogLine))) (question : String) :
    CacheResult :=
  match log_dir with
  | none => ⟨question, none, none⟩
  | some partitions =>
    match scanStore question partitions with
    | some e => ⟨question, some (formatCachedAnswer e.answer e.citations), some true⟩
    | none => ⟨question, none, some false⟩

/-- `route_from_cache` (cache.py lines 77-82): `state.get("cache_hit", False)`
decides between ending the pipeline and rewriting the query. -/
def route_from_cache (cache_hit : Option Bool) : String :=
  if cache_hit.getD false then "__end__" else "rewrite_query"

/-- The record logged by `qa_logger` in `generate_answer` (generator.py
lines 151-168): the persisted Audit Record fields the cache later reads,
plus the traceability fields. -/
structure AuditRecord where
  question : String
  rewritten_queries : List String
  answer : String
  citations : List String
  reranked_context : List (String × String)
deriving DecidableEq, Repr

/-- The record logged by `error_logger` in `generate_answer` (generator.py
lines 174-184). -/
structure ErrorRecord where
  error_type : String
  error_message : String
  question : String
deriving DecidableEq, Repr

/-- Outcome of the generation LLM call plus JSON parsing (generator.py lines
130-141): `exc` models the call raising or `json.loads` failing (both land
in the same `except`), `ok` a parsed `{"answer": ..., "citations": ...}`
object with the `get` defaults applied. -/
inductive GenOutcome where
  | exc (error_type error_message : String)
  | ok (answer : String) (citations : List String)
deriving DecidableEq, Repr

/-- The value returned/written by `generate_answer`: the user-facing
message, the Audit Record appended to the Q&A log (if any), and the error
record appended to the error log (if any). -/
structure GenResult where
  message : String
  audit : Option AuditRecord
  err : Option ErrorRecord
deriving DecidableEq, Repr

/-- `generate_answer` (generator.py lines 110-190) as a function of the
question, the rewritten queries, the reranked documents and the LLM
outcome.  The empty-context check precedes the LLM call, so the result is
independent of `llm` when `docs = []`. -/
def generate_answer (question : String) (rewritten_queries : List String)
    (docs : List Document) (llm : GenOutcome) : GenResult :=
  if docs.isEmpty then ⟨"I don't know.", none, none⟩
  else
    match llm with
    | GenOutcome.ok answer citations =>
      let answer_text :=
        if citations.isEmpty then answer
        else answer ++ "\n\nSources:\n" ++ String.intercalate "\n" citations
      ⟨answer_text,
       some ⟨question, rewritten_queries, answer, citations,
             docs.map (fun d => (d.chunk_id.getD "Unknown", d.page_content))⟩,
       none⟩
    | GenOutcome.exc etype emsg =>
      ⟨"I don't know. (Error during answer generation)", none,
       some ⟨etype, emsg, question⟩⟩

/-- A Q&A log line as the Audit Record of `generate_answer` is later parsed
by `check_cache`: only `question`, `answer`, `citations` are read. -/
def AuditRecord.toLogEntry (r : AuditRecord) : LogEntry :=
  ⟨r.question, r.answer, r.citations⟩

/-- A sample document used to evaluate the model on concrete inputs. -/
def dSingle : Document := ⟨some "a", "x"⟩

/-- Six pairwise distinct sample documents. -/
def sixDocs : List Document :=
  [⟨some "c0", "t0"⟩, ⟨some "c1", "t1"⟩, ⟨some "c2", "t2"⟩,
   ⟨some "c3", "t3"⟩, ⟨some "c4", "t4"⟩, ⟨some "c5", "t5"⟩]

/-- A two-partition log store holding two records whose questions are
strip-lower-equal but whose answers differ. -/
def twoMatchStore : List (List LogLine) :=
  [[some ⟨"hello", "A1", []⟩], [some ⟨"HELLO", "A2", []⟩]]

theorem mapOpt_length (f : Int → Option Document) :
    ∀ {l : List Int} {res : List Document}, mapOpt f l = some res → res.length = l.length := by
  intro l
  induction l with
  | nil => intro res h; simp [mapOpt] at h; simp [← h]
  | cons i t ih =>
    intro res h
    simp only [mapOpt] at h
    cases hf : f i with
    | none => rw [hf] at h; exact absurd h (by simp)
    | some d =>
      rw [hf] at h
      cases hm : mapOpt f t with
      | none => rw [hm] at h; exact absurd h (by simp)
      | some ds =>
        rw [hm] at h
        simp only [Option.some.injEq] at h
        subst h
        simp [ih hm]

theorem mapOpt_isSome (f : Int → Option Document) :
    ∀ {l : List Int}, (∀ i ∈ l, (f i).isSome) → ∃ res, mapOpt f l = some res := by
  intro l
  induction l with
  | nil => intro _; exact ⟨[], rfl⟩
  | cons i t ih =>
    intro h
    obtain ⟨d, hd⟩ := Option.isSome_iff_exists.mp (h i (by simp))
    obtain ⟨ds, hds⟩ := ih (fun j hj => h j (by simp [hj]))
    exact ⟨d :: ds, by simp [mapOpt, hd, hds]⟩

theorem mapOpt_mem (f : Int → Option Document) :
    ∀ {l : List Int} {res : List Document} {i : Int} {d : Document},
      mapOpt f l = some res → i ∈ l → f i = some d → d ∈ res := by
  intro l
  induction l with
  | nil => intro res i d _ hi; simp at hi
  | cons j t ih =>
    intro res i d h hi hf
    simp only [mapOpt] at h
    cases hj : f j with
    | none => rw [hj] at h; exact absurd h (by simp)
    | some dj =>
      rw [hj] at h
      cases hm : mapOpt f t with
      | none => rw [hm] at h; exact absurd h (by simp)
      | some ds =>
        rw [hm] at h
        simp only [Option.some.injEq] at h
        subst h
        rcases List.mem_cons.mp hi with hij | hit
        · subst hij
          rw [hj] at hf
          simp at hf
          simp [hf]
        · exact List.mem_cons_of_mem _ (ih hm hit hf)

/-- C3: if the rerank LLM call raises, or if after discarding selected
indices that are `≥` the candidate count zero valid indices remain, then
`rerank_docs` returns the first `TOP_K_FINAL = 5` elements of the fused
candidate list, in fusion order. -/
theorem C3_rerank_fallback (docs : List Document) (llm : Option (List Int))
    (h : llm = none ∨
      ∃ ids, llm = some ids ∧ ids.filter (fun i => i < (docs.length : Int)) = []) :
    rerank_docs docs llm = docs.take TOP_K_FINAL := by
  rcases h with h | ⟨ids, hids, hfil⟩
  · subst h; rfl
  · subst hids
    have hsub : ((ids.take TOP_K_FINAL).filter (fun i => i < (docs.length : Int))).Sublist
        (ids.filter (fun i => i < (docs.length : Int))) :=
      List.Sublist.filter _ (List.take_sublist _ _)
    rw [hfil] at hsub
    have hnil : (ids.take TOP_K_FINAL).filter (fun i => i < (docs.length : Int)) = [] :=
      List.sublist_nil.mp hsub
    simp only [rerank_docs, hnil, mapOpt]
    rfl

/-- Witness for C3 at a concrete input: the single selected index 5 is out
of range for a one-element candidate list, so the fallback fires. -/
theorem C3_rerank_fallback_witness :
    ((some [(5 : Int)] = (none : Option (List Int)) ∨
      ∃ ids, (some [(5 : Int)] : Option (List Int)) = some ids ∧
        ids.filter (fun i => i < (([dSingle] : List Document).length : Int)) = []))
    ∧ rerank_docs [dSingle] (some [5]) = ([dSingle] : List Document).take TOP_K_FINAL := by
  refine ⟨Or.inr ⟨[5], rfl, by decide⟩,
    C3_rerank_fallback [dSingle] (some [5]) (Or.inr ⟨[5], rfl, by decide⟩)⟩

/-- Counterexample to C2 as stated: a selection with duplicate indices makes
`reranked_context` strictly longer than a one-element fused list, so
`length reranked_context ≤ length fused_context` fails on a reachable
state (fused context produced by `fuse_docs`). -/
theorem C2_counterexample :
    fuse_docs [dSingle] 60 = [dSingle]
    ∧ rerank_docs (fuse_docs [dSingle] 60) (some [0, 0, 0]) = [dSingle, dSingle, dSingle]
    ∧ ¬ ((rerank_docs (fuse_docs [dSingle] 60) (some [0, 0, 0])).length
          ≤ (fuse_docs [dSingle] 60).length) := by
  refine ⟨by decide, by decide, by decide⟩

theorem rerank_docs_some (docs : List Document) (ids : List Int) :
    rerank_docs docs (some ids) =
      match mapOpt (pyGet docs)
          ((ids.take TOP_K_FINAL).filter (fun i => i < (docs.length : Int))) with
      | none => docs.take TOP_K_FINAL
      | some rs => if rs.isEmpty then docs.take TOP_K_FINAL else rs := rfl

/-- C2 amended: `reranked_context` is capped at `TOP_K_FINAL = 5` and
`fused_context` at `TOP_K_FUSION = 15`; moreover
`length reranked_context ≤ length fused_context` does hold on the
exception fallback and whenever the rerank selection is duplicate-free and
nonnegative — C2's original chain fails only through duplicate or negative
selected indices against a short fused list. -/
theorem C2_amended_bounds :
    (∀ (docs : List Document) (llm : Option (List Int)),
        (rerank_docs docs llm).length ≤ TOP_K_FINAL)
    ∧ (∀ (all_docs : List Document) (k : ℚ),
        (fuse_docs all_docs k).length ≤ TOP_K_FUSION)
    ∧ (∀ docs : List Document, (rerank_docs docs none).length ≤ docs.length)
    ∧ (∀ (docs : List Document) (ids : List Int), ids.Nodup →
        (∀ j ∈ ids, 0 ≤ j) →
        (rerank_docs docs (some ids)).length ≤ docs.length) := by
  have htake : ∀ (docs : List Document) (n : Nat), (docs.take n).length ≤ n := by
    intro docs n; simp [List.length_take]
  refine ⟨?_, ?_, ?_, ?_⟩
  · intro docs llm
    match llm with
    | none => exact htake docs TOP_K_FINAL
    | some ids =>
      rw [rerank_docs_some]
      cases hm : mapOpt (pyGet docs)
          ((ids.take TOP_K_FINAL).filter (fun i => i < (docs.length : Int))) with
      | none => exact htake docs TOP_K_FINAL
      | some rs =>
        by_cases hre : rs.isEmpty
        · simp [hre, htake docs TOP_K_FINAL]
        · simp only [hre, if_false]
          calc rs.length
              = ((ids.take TOP_K_FINAL).filter (fun i => i < (docs.length : Int))).length :=
                mapOpt_length _ hm
            _ ≤ (ids.take TOP_K_FINAL).length := List.length_filter_le _ _
            _ ≤ TOP_K_FINAL := by simp [List.length_take]
  · intro all_docs k
    exact htake _ TOP_K_FUSION
  · intro docs
    simp only [rerank_docs, List.length_take]
    omega
  · intro docs ids hnd hnn
    rw [rerank_docs_some]
    cases hm : mapOpt (pyGet docs)
        ((ids.take TOP_K_FINAL).filter (fun i => i < (docs.length : Int))) with
    | none => simp only [List.length_take]; omega
    | some rs =>
      by_cases hre : rs.isEmpty
      · simp only [hre, if_true, List.length_take]; omega
      · simp only [hre, if_false]
        have hlen := mapOpt_length _ hm
        have hsubl : ((ids.take TOP_K_FINAL).filter
            (fun i => i < (docs.length : Int))).Sublist ids :=
          (List.filter_sublist _).trans (List.take_sublist _ _)
        have hndf : ((ids.take TOP_K_FINAL).filter
            (fun i => i < (docs.length : Int))).Nodup := hnd.sublist hsubl
        have hmemf : ∀ j ∈ (ids.take TOP_K_FINAL).filter
            (fun i => i < (docs.length : Int)), 0 ≤ j ∧ j < (docs.length : Int) := by
          intro j hj
          have hj' := List.mem_filter.mp hj
          refine ⟨hnn j (hsubl.subset hj), by simpa using hj'.2⟩
        have hndn : (((ids.take TOP_K_FINAL).filter
            (fun i => i < (docs.length : Int))).map Int.toNat).Nodup := by
          refine List.Nodup.map_on ?_ hndf
          intro x hx y hy hxy
          have h1 := (hmemf x hx).1
          have h2 := (hmemf y hy).1
          omega
        have hsubf : (((ids.take TOP_K_FINAL).filter
            (fun i => i < (docs.length : Int))).map Int.toNat).toFinset ⊆
            Finset.range docs.length := by
          intro m hm'
          rcases List.mem_map.mp (List.mem_toFinset.mp hm') with ⟨j, hj, rfl⟩
          have := hmemf j hj
          exact Finset.mem_range.mpr (by omega)
        calc rs.length
            = ((ids.take TOP_K_FINAL).filter
                (fun i => i < (docs.length : Int))).length := hlen
          _ = (((ids.take TOP_K_FINAL).filter
                (fun i => i < (docs.length : Int))).map Int.toNat).length :=
                (List.length_map _ _).symm
          _ = (((ids.take TOP_K_FINAL).filter
                (fun i => i < (docs.length : Int))).map Int.toNat).toFinset.card :=
                (List.toFinset_card_of_nodup hndn).symm
          _ ≤ (Finset.range docs.length).card := Finset.card_le_card hsubf
          _ = docs.length := Finset.card_range _

/-- Counterexample to C10 as stated: the negative index `-1` does survive
the validity filter, but here it sits at position 5 of the selection, and
`selected_ids[:TOP_K_FINAL]` drops it before the filter runs — so the
last chunk is not included even though `-len(docs) ≤ -1 < 0`. -/
theorem C10_counterexample :
    (-1 : Int) ∈ ([0, 1, 2, 3, 4, -1] : List Int)
    ∧ (-(sixDocs.length : Int) ≤ -1 ∧ (-1 : Int) < 0)
    ∧ sixDocs.get? ((sixDocs.length : Int) + (-1)).toNat = some ⟨some "c5", "t5"⟩
    ∧ (⟨some "c5", "t5"⟩ : Document) ∉ rerank_docs sixDocs (some [0, 1, 2, 3, 4, -1]) := by
  refine ⟨by decide, ⟨by decide, by decide⟩, by decide, by decide⟩

/-- C10 amended: a negative selected index `i` with `-len(docs) ≤ i < 0` is
not discarded, provided it is among the first `TOP_K_FINAL = 5` selected
indices (the code truncates to `selected_ids[:TOP_K_FINAL]` before
filtering) and none of those kept indices under-runs the list (which would
raise `IndexError` and trigger the fallback): the chunk at position
`len(docs) + i` is then included in `reranked_context`.  The lower bound
`-len(docs) ≤ i` follows from the hypothesis on the kept indices. -/
theorem C10_negative_index_kept (docs : List Document) (ids : List Int) (i : Int)
    (hmem : i ∈ ids.take TOP_K_FINAL)
    (hsafe : ∀ j ∈ ids.take TOP_K_FINAL, -(docs.length : Int) ≤ j)
    (hneg : i < 0) :
    ∃ c, docs.get? ((docs.length : Int) + i).toNat = some c
      ∧ c ∈ rerank_docs docs (some ids) := by
  have hi_lt : i < (docs.length : Int) := lt_of_lt_of_le hneg (by positivity)
  have hmemfil : i ∈ (ids.take TOP_K_FINAL).filter (fun j => j < (docs.length : Int)) :=
    List.mem_filter.mpr ⟨hmem, by simpa using hi_lt⟩
  have hsome : ∀ j ∈ (ids.take TOP_K_FINAL).filter (fun j => j < (docs.length : Int)),
      (pyGet docs j).isSome := by
    intro j hj
    have hj' := List.mem_filter.mp hj
    have hjlt : j < (docs.length : Int) := by simpa using hj'.2
    have hjge : -(docs.length : Int) ≤ j := hsafe j hj'.1
    by_cases hj0 : 0 ≤ j
    · simp only [pyGet, if_pos hj0]
      have : j.toNat < docs.length := by omega
      simp [List.getElem?_eq_getElem this]
    · have h1 : 0 ≤ (docs.length : Int) + j := by omega
      simp only [pyGet, if_neg hj0, if_pos h1]
      have : ((docs.length : Int) + j).toNat < docs.length := by omega
      simp [List.getElem?_eq_getElem this]
  obtain ⟨rs, hrs⟩ := mapOpt_isSome (pyGet docs) hsome
  have hpy : pyGet docs i = docs.get? ((docs.length : Int) + i).toNat := by
    have h0 : ¬ 0 ≤ i := by omega
    have h1 : 0 ≤ (docs.length : Int) + i := by
      have := hsafe i hmem; omega
    simp [pyGet, h0, h1]
  have hidx : ((docs.length : Int) + i).toNat < docs.length := by
    have := hsafe i hmem; omega
  obtain ⟨c, hc⟩ : ∃ c, docs.get? ((docs.length : Int) + i).toNat = some c := by
    simp only [List.get?_eq_getElem?]
    exact ⟨_, List.getElem?_eq_getElem hidx⟩
  refine ⟨c, hc, ?_⟩
  have hcrs : c ∈ rs := mapOpt_mem (pyGet docs) hrs hmemfil (hpy.trans hc)
  have hne : rs.isEmpty = false := by
    cases rs with
    | nil => simp at hcrs
    | cons a t => rfl
  rw [rerank_docs_some]
  simp [hrs, hne, hcrs]

/-- Witness for the amended C10 at a concrete input that exercises the
`selected_ids[:TOP_K_FINAL]` truncation: the selection `[-1,0,1,2,3,4]` has
six entries, the code keeps `[-1,0,1,2,3]`, and the last of the six
documents (reached through `-1`) is included. -/
theorem C10_negative_index_kept_witness :
    ((-1 : Int) ∈ (([-1, 0, 1, 2, 3, 4] : List Int).take TOP_K_FINAL)
      ∧ (∀ j ∈ (([-1, 0, 1, 2, 3, 4] : List Int).take TOP_K_FINAL),
          -(sixDocs.length : Int) ≤ j)
      ∧ (-1 : Int) < 0)
    ∧ ∃ c, sixDocs.get? ((sixDocs.length : Int) + (-1)).toNat = some c
        ∧ c ∈ rerank_docs sixDocs (some [-1, 0, 1, 2, 3, 4]) := by
  exact ⟨⟨by decide, by decide, by decide⟩,
    C10_negative_index_kept sixDocs [-1, 0, 1, 2, 3, 4] (-1)
      (by decide) (by decide) (by decide)⟩

theorem send_all_queries_flat_length :
    ∀ qs : List String,
      (qs.flatMap (fun query =>
        [SendOp.mk "retrieve_vector" query, SendOp.mk "retrieve_bm25" query])).length
      = 2 * qs.length := by
  intro qs
  induction qs with
  | nil => rfl
  | cons q t ih => simp [List.flatMap_cons, ih]; omega

/-- Counterexample to C4 as stated: the rewriter does not validate the
number of rewritten queries (`result.get("queries", [])`), so a request
whose `rewritten_queries` has four entries dispatches ten retrieval
operations, exceeding the claimed bound of eight. -/
theorem C4_counterexample :
    (send_all_queries ["a", "b", "c", "d"] "q").length = 10
    ∧ ¬ ((send_all_queries ["a", "b", "c", "d"] "q").length ≤ 8) := by
  refine ⟨by decide, by decide⟩

/-- C4 amended: the dispatched variants are exactly the set
`rewritten_queries ∪ {question}`, each variant goes to both the dense and
the lexical backend (with `k = TOP_K_FINAL = 5`), and
`2 * (|rewritten_queries| + 1)` operations are dispatched — hence at most
8 whenever `rewritten_queries` has at most 3 entries (as the rewrite
prompt requests, but the code does not enforce). -/
theorem C4_dispatch (rewritten_queries : List String) (question : String) :
    ((send_all_queries rewritten_queries question).length
        = 2 * (rewritten_queries.length + 1))
    ∧ (∀ s ∈ send_all_queries rewritten_queries question,
        (s.node = "retrieve_vector" ∨ s.node = "retrieve_bm25")
        ∧ (s.question ∈ rewritten_queries ∨ s.question = question))
    ∧ (∀ v, (v ∈ rewritten_queries ∨ v = question) →
        SendOp.mk "retrieve_vector" v ∈ send_all_queries rewritten_queries question
        ∧ SendOp.mk "retrieve_bm25" v ∈ send_all_queries rewritten_queries question)
    ∧ (rewritten_queries.length ≤ 3 →
        (send_all_queries rewritten_queries question).length ≤ 8)
    ∧ (∀ (backend : String → Nat → List Document) (q : String),
        retrieve_vector backend q = backend q TOP_K_FINAL
        ∧ retrieve_bm25 backend q = backend q TOP_K_FINAL
        ∧ TOP_K_FINAL = 5) := by
  have hlen : (send_all_queries rewritten_queries question).length
      = 2 * (rewritten_queries.length + 1) := by
    unfold send_all_queries
    rw [send_all_queries_flat_length]
    simp
  refine ⟨hlen, ?_, ?_, ?_, ?_⟩
  · intro s hs
    unfold send_all_queries at hs
    rcases List.mem_flatMap.mp hs with ⟨q', hq', hmem⟩
    simp only [List.mem_cons, List.not_mem_nil, or_false] at hmem
    rcases List.mem_append.mp hq' with h | h
    · rcases hmem with rfl | rfl
      · exact ⟨Or.inl rfl, Or.inl h⟩
      · exact ⟨Or.inr rfl, Or.inl h⟩
    · have hq : q' = question := by simpa using h
      subst hq
      rcases hmem with rfl | rfl
      · exact ⟨Or.inl rfl, Or.inr rfl⟩
      · exact ⟨Or.inr rfl, Or.inr rfl⟩
  · intro v hv
    have hvq : v ∈ rewritten_queries ++ [question] := by
      rcases hv with h | h
      · exact List.mem_append.mpr (Or.inl h)
      · exact List.mem_append.mpr (Or.inr (by simp [h]))
    constructor
    · exact List.mem_flatMap.mpr ⟨v, hvq, by simp⟩
    · exact List.mem_flatMap.mpr ⟨v, hvq, by simp⟩
  · intro h3
    rw [hlen]
    omega
  · intro backend q
    exact ⟨rfl, rfl, rfl⟩

/-- Witness for C4 at a concrete input with three rewritten queries: eight
operations, and the original question reaches both backends. -/
theorem C4_dispatch_witness :
    (send_all_queries ["a", "b", "c"] "q").length ≤ 8
    ∧ SendOp.mk "retrieve_vector" "q" ∈ send_all_queries ["a", "b", "c"] "q"
    ∧ SendOp.mk "retrieve_bm25" "q" ∈ send_all_queries ["a", "b", "c"] "q" := by
  have h := C4_dispatch ["a", "b", "c"] "q"
  exact ⟨h.2.2.2.1 (by decide),
    (h.2.2.1 "q" (Or.inr rfl)).1, (h.2.2.1 "q" (Or.inr rfl)).2⟩

theorem scanPartition_eq_find (question : String) :
    ∀ p : List LogLine, scanPartition question p
      = (p.filterMap id).find? (fun e => pyNorm e.question == pyNorm question) := by
  intro p
  induction p with
  | nil => rfl
  | cons l rest ih =>
    cases l with
    | none => simpa [scanPartition, List.filterMap_cons] using ih
    | some e =>
      by_cases h : pyNorm e.question = pyNorm question
      · simp [scanPartition, List.filterMap_cons, List.find?_cons, h]
      · simp only [scanPartition, List.filterMap_cons, if_neg h]
        rw [ih]
        have : (pyNorm e.question == pyNorm question) = false := by
          simpa using h
        simp [List.find?_cons, this]

theorem scanStore_eq_find (question : String) :
    ∀ store : List (List LogLine), scanStore question store
      = (store.flatMap (fun p => p.filterMap id)).find?
          (fun e => pyNorm e.question == pyNorm question) := by
  intro store
  induction store with
  | nil => rfl
  | cons p rest ih =>
    simp only [scanStore, List.flatMap_cons, List.find?_append, scanPartition_eq_find question p]
    cases h : (p.filterMap id).find? (fun e => pyNorm e.question == pyNorm question) with
    | none => simpa [h] using ih
    | some e => simp [h]

theorem scanStore_isSome_of_match (q : String) (store : List (List LogLine))
    (h : ∃ p ∈ store, ∃ e : LogEntry,
        (some e : LogLine) ∈ p ∧ pyNorm e.question = pyNorm q) :
    ∃ e, scanStore q store = some e ∧ pyNorm e.question = pyNorm q := by
  rcases h with ⟨p, hp, e, hep, hnorm⟩
  rw [scanStore_eq_find]
  have hmem : e ∈ store.flatMap (fun p => p.filterMap id) :=
    List.mem_flatMap.mpr ⟨p, hp, List.mem_filterMap.mpr ⟨some e, hep, rfl⟩⟩
  have hsome : ((store.flatMap (fun p => p.filterMap id)).find?
      (fun e => pyNorm e.question == pyNorm q)).isSome :=
    List.find?_isSome.mpr ⟨e, hmem, by simpa using hnorm⟩
  obtain ⟨e', he'⟩ := Option.isSome_iff_exists.mp hsome
  exact ⟨e', he', by simpa using List.find?_some he'⟩

theorem scanStore_mem (q : String) (store : List (List LogLine)) (e : LogEntry)
    (h : scanStore q store = some e) :
    (∃ p ∈ store, (some e : LogLine) ∈ p) ∧ pyNorm e.question = pyNorm q := by
  rw [scanStore_eq_find] at h
  have hmem := List.mem_of_find?_eq_some h
  rcases List.mem_flatMap.mp hmem with ⟨p, hp, hef⟩
  rcases List.mem_filterMap.mp hef with ⟨l, hl, hle⟩
  have hl' : l = some e := by simpa using hle
  subst hl'
  exact ⟨⟨p, hp, hl⟩, by simpa using List.find?_some h⟩

/-- Counterexample to C5 as stated: the store holds two records whose
questions are strip-lower-equal; an Audit Record for Q1 = "HELLO" exists,
but asking Q2 = "hello" is served from the other, earlier-scanned record,
so the served answer is not byte-identical to the one logged for Q1. -/
theorem C5_counterexample :
    pyNorm "hello" = pyNorm "HELLO"
    ∧ (∃ p ∈ twoMatchStore, (some (⟨"HELLO", "A2", []⟩ : LogEntry) : LogLine) ∈ p)
    ∧ (check_cache (some twoMatchStore) "hello").cache_hit = some true
    ∧ (check_cache (some twoMatchStore) "hello").message = some "[Cached Response]\n\nA1"
    ∧ (check_cache (some twoMatchStore) "hello").message
        ≠ some (formatCachedAnswer "A2" []) := by
  refine ⟨by decide, ⟨[some ⟨"HELLO", "A2", []⟩], by decide, by decide⟩,
    by decide, by decide, by decide⟩

/-- C5 amended: a prior Audit Record for Q1 makes any strip-lower-equal Q2
a cache hit; the served answer and citations are those of the first
matching record in scan order, hence byte-identical to Q1's whenever every
matching record in the store carries Q1's answer and citations (in
particular when Q1's record is the only match). -/
theorem C5_cache_hit (store : List (List LogLine)) (Q1 Q2 A : String) (C : List String)
    (hrec : ∃ p ∈ store, (some (⟨Q1, A, C⟩ : LogEntry) : LogLine) ∈ p)
    (hnorm : pyNorm Q1 = pyNorm Q2) :
    (check_cache (some store) Q2).cache_hit = some true
    ∧ (∀ e, scanStore Q2 store = some e →
        (check_cache (some store) Q2).message
          = some (formatCachedAnswer e.answer e.citations))
    ∧ ((∀ p ∈ store, ∀ e : LogEntry, (some e : LogLine) ∈ p →
          pyNorm e.question = pyNorm Q2 → e.answer = A ∧ e.citations = C) →
        (check_cache (some store) Q2).message = some (formatCachedAnswer A C)) := by
  rcases hrec with ⟨p, hp, hep⟩
  obtain ⟨e0, he0, hne0⟩ :=
    scanStore_isSome_of_match Q2 store ⟨p, hp, ⟨Q1, A, C⟩, hep, hnorm⟩
  refine ⟨?_, ?_, ?_⟩
  · simp [check_cache, he0]
  · intro e he
    simp [check_cache, he]
  · intro huniq
    obtain ⟨⟨p0, hp0, hep0⟩, hn0⟩ := scanStore_mem Q2 store e0 he0
    obtain ⟨hA, hC⟩ := huniq p0 hp0 e0 hep0 hn0
    simp [check_cache, he0, hA, hC]

/-- Witness for the amended C5 at a concrete input: a one-record store,
`Q1 = "Hi"`, `Q2 = " hi "`. -/
theorem C5_cache_hit_witness :
    ((∃ p ∈ ([[some ⟨"Hi", "ANS", ["c"]⟩]] : List (List LogLine)),
        (some (⟨"Hi", "ANS", ["c"]⟩ : LogEntry) : LogLine) ∈ p)
      ∧ pyNorm "Hi" = pyNorm " hi ")
    ∧ (check_cache (some [[some ⟨"Hi", "ANS", ["c"]⟩]]) " hi ").cache_hit = some true
    ∧ (check_cache (some [[some ⟨"Hi", "ANS", ["c"]⟩]]) " hi ").message
        = some (formatCachedAnswer "ANS" ["c"]) := by
  have hrec : ∃ p ∈ ([[some ⟨"Hi", "ANS", ["c"]⟩]] : List (List LogLine)),
      (some (⟨"Hi", "ANS", ["c"]⟩ : LogEntry) : LogLine) ∈ p :=
    ⟨[some ⟨"Hi", "ANS", ["c"]⟩], by decide, by decide⟩
  have h := C5_cache_hit [[some ⟨"Hi", "ANS", ["c"]⟩]] "Hi" " hi " "ANS" ["c"]
    hrec (by decide)
  refine ⟨⟨hrec, by decide⟩, h.1, h.2.2 ?_⟩
  intro p hp e hep hn
  have hp' : p = [some ⟨"Hi", "ANS", ["c"]⟩] := by simpa using hp
  subst hp'
  have he' : (some e : LogLine) = some ⟨"Hi", "ANS", ["c"]⟩ := by simpa using hep
  have he'' : e = ⟨"Hi", "ANS", ["c"]⟩ := by simpa using he'
  subst he''
  exact ⟨rfl, rfl⟩

/-- Counterexample to C6 as stated: a match whose record has an empty
citation list is served without any trailing "Sources:" block at all —
the code only appends the block when the citation list is nonempty. -/
theorem C6_counterexample :
    (check_cache (some [[some ⟨"q", "A", []⟩]]) "q").message
      = some "[Cached Response]\n\nA"
    ∧ (some "[Cached Response]\n\nA" : Option String)
        ≠ some ("[Cached Response]\n\n" ++ "A" ++ "\n\nSources:\n") := by
  refine ⟨by decide, by decide⟩

/-- C6 amended: on the first match in scan order (malformed lines skipped),
`check_cache` sets `cache_hit = true` and returns the logged answer with
the literal "[Cached Response]" prefix, followed — when the logged
citation list is nonempty — by a trailing "Sources:" block listing each
citation on its own line (joined by ";\n"); with no citations the block is
omitted. -/
theorem C6_cached_format (store : List (List LogLine)) (q : String) (e : LogEntry)
    (h : (store.flatMap (fun p => p.filterMap id)).find?
        (fun r => pyNorm r.question == pyNorm q) = some e) :
    check_cache (some store) q =
      ⟨q, some ("[Cached Response]\n\n" ++ e.answer ++
          (if e.citations.isEmpty then ""
           else "\n\nSources:\n" ++ String.intercalate ";\n" e.citations)),
       some true⟩ := by
  have hscan : scanStore q store = some e := by rw [scanStore_eq_find]; exact h
  by_cases hemp : e.citations.isEmpty
  · simp [check_cache, hscan, formatCachedAnswer, hemp]
  · simp [check_cache, hscan, formatCachedAnswer, hemp, String.append_assoc]

/-- Witness for the amended C6 at a concrete input: a partition with a
malformed first line and a matching record with two citations. -/
theorem C6_cached_format_witness :
    (([[ (none : LogLine), some ⟨" Q ", "A", ["s1", "s2"]⟩ ]] : List (List LogLine)).flatMap
        (fun p => p.filterMap id)).find? (fun r => pyNorm r.question == pyNorm "q")
      = some ⟨" Q ", "A", ["s1", "s2"]⟩
    ∧ check_cache (some [[none, some ⟨" Q ", "A", ["s1", "s2"]⟩]]) "q"
      = ⟨"q", some ("[Cached Response]\n\n" ++ "A" ++
          (if (["s1", "s2"] : List String).isEmpty then ""
           else "\n\nSources:\n" ++ String.intercalate ";\n" ["s1", "s2"])),
         some true⟩ := by
  exact ⟨by decide,
    C6_cached_format [[none, some ⟨" Q ", "A", ["s1", "s2"]⟩]] "q"
      ⟨" Q ", "A", ["s1", "s2"]⟩ (by decide)⟩

theorem scanPartition_filter_malformed (question : String) :
    ∀ p : List LogLine,
      scanPartition question (p.filterMap (fun l => l.map some))
        = scanPartition question p := by
  intro p
  induction p with
  | nil => rfl
  | cons l rest ih =>
    cases l with
    | none => simpa [List.filterMap_cons] using ih
    | some e =>
      by_cases h : pyNorm e.question = pyNorm question
      · simp [List.filterMap_cons, Option.map_some, scanPartition, h]
      · simpa [List.filterMap_cons, Option.map_some, scanPartition, h] using ih

/-- Counterexample to C7 as stated: with a missing log directory,
`check_cache` returns only `{"question": question}` — the `cache_hit` key
is absent, not set to `false`, so the returned update differs from a
normal cache miss. -/
theorem C7_counterexample :
    (check_cache none "q").cache_hit = none
    ∧ (check_cache none "q").cache_hit ≠ some false
    ∧ (check_cache (some []) "q").cache_hit = some false
    ∧ check_cache none "q" ≠ check_cache (some []) "q" := by
  refine ⟨by decide, by decide, by decide, by decide⟩

/-- C7 amended: when the log directory exists and no record matches, the
result is a cache miss with `cache_hit = false`; malformed lines are
skipped individually (removing them does not change the result); a
missing log directory yields a result without the `cache_hit` key that
the router `route_from_cache` treats exactly like a cache miss
(`"rewrite_query"`), not an error. -/
theorem C7_miss_and_robustness (store : List (List LogLine)) (q : String) :
    ((∀ p ∈ store, ∀ e : LogEntry, (some e : LogLine) ∈ p →
        pyNorm e.question ≠ pyNorm q) →
      check_cache (some store) q = ⟨q, none, some false⟩)
    ∧ (check_cache (some (store.map (fun p => p.filterMap (fun l => l.map some)))) q
        = check_cache (some store) q)
    ∧ ((check_cache none q).message = none
        ∧ route_from_cache (check_cache none q).cache_hit = "rewrite_query"
        ∧ route_from_cache (check_cache none q).cache_hit
            = route_from_cache (check_cache (some []) q).cache_hit) := by
  refine ⟨?_, ?_, rfl, rfl, rfl⟩
  · intro hnone
    have hscan : scanStore q store = none := by
      rw [scanStore_eq_find]
      apply List.find?_eq_none.mpr
      intro e he
      rcases List.mem_flatMap.mp he with ⟨p, hp, hef⟩
      rcases List.mem_filterMap.mp hef with ⟨l, hl, hle⟩
      have hl' : l = some e := by simpa using hle
      subst hl'
      simpa using hnone p hp e hl
    simp [check_cache, hscan]
  · have hs : scanStore q (store.map (fun p => p.filterMap (fun l => l.map some)))
        = scanStore q store := by
      induction store with
      | nil => rfl
      | cons p rest ih =>
        simp only [List.map_cons, scanStore, scanPartition_filter_malformed q p, ih]
    simp [check_cache, hs]

/-- Witness for the amended C7 at a concrete input: a store consisting of
one partition with a single malformed line misses, and the missing-dir
result routes to the rewriter. -/
theorem C7_miss_and_robustness_witness :
    check_cache (some [[ (none : LogLine) ]]) "q" = ⟨"q", none, some false⟩
    ∧ route_from_cache (check_cache none "q").cache_hit = "rewrite_query" := by
  have h := C7_miss_and_robustness [[ (none : LogLine) ]] "q"
  refine ⟨h.1 ?_, h.2.2.2.1⟩
  intro p hp e he
  have hp' : p = [(none : LogLine)] := by simpa using hp
  subst hp'
  simp at he

/-- C8: with an empty `reranked_context`, `generate_answer` returns exactly
"I don't know."; the result does not depend on the LLM outcome (the check
precedes the call, so no generation call is made) and neither an audit nor
an error record is written. -/
theorem C8_empty_context (question : String) (rewritten_queries : List String)
    (llm : GenOutcome) :
    generate_answer question rewritten_queries [] llm
      = ⟨"I don't know.", none, none⟩ := rfl

/-- C9: with a non-empty `reranked_context`, a raising or non-parsing LLM
call makes `generate_answer` return exactly the fallback text, write an
error record carrying the error type, message and question, and write no
Audit Record. -/
theorem C9_generation_error (question : String) (rewritten_queries : List String)
    (docs : List Document) (etype emsg : String) (h : docs ≠ []) :
    generate_answer question rewritten_queries docs (GenOutcome.exc etype emsg)
      = ⟨"I don't know. (Error during answer generation)", none,
         some ⟨etype, emsg, question⟩⟩ := by
  cases docs with
  | nil => exact absurd rfl h
  | cons d t => rfl

/-- Witness for C9 at a concrete input. -/
theorem C9_generation_error_witness :
    ([dSingle] : List Document) ≠ []
    ∧ generate_answer "q" ["r"] [dSingle] (GenOutcome.exc "TimeoutError" "m")
      = ⟨"I don't know. (Error during answer generation)", none,
         some ⟨"TimeoutError", "m", "q"⟩⟩ := by
  exact ⟨by decide,
    C9_generation_error "q" ["r"] [dSingle] "TimeoutError" "m" (by decide)⟩

theorem dedupFirstSeenAux_congr :
    ∀ (l : List Document) (s1 s2 : List DKey),
      (∀ x, x ∈ s1 ↔ x ∈ s2) → dedupFirstSeenAux s1 l = dedupFirstSeenAux s2 l := by
  intro l
  induction l with
  | nil => intro s1 s2 _; rfl
  | cons d rest ih =>
    intro s1 s2 h
    simp only [dedupFirstSeenAux]
    by_cases hd : dedupKey d ∈ s1
    · rw [if_pos hd, if_pos ((h _).mp hd)]
      exact ih s1 s2 h
    · rw [if_neg hd, if_neg (fun hc => hd ((h _).mpr hc))]
      rw [ih (dedupKey d :: s1) (dedupKey d :: s2) (fun x => by simp [h x])]

theorem fuseStep_eq (k : ℚ) (f₀ : DKey → ℚ) (m₀ : List Document) (p : Nat × Document) :
    fuseStep k (f₀, m₀) p
      = ((fun key => if key = dedupKey p.2
            then f₀ key + 1 / (k + ((p.1 % TOP_K_FINAL + 1 : Nat) : ℚ)) else f₀ key),
         if m₀.any (fun d => dedupKey d = dedupKey p.2) then m₀ else m₀ ++ [p.2]) := rfl

theorem fuse_foldl_score (k : ℚ) :
    ∀ (ps : List (Nat × Document)) (f₀ : DKey → ℚ) (m₀ : List Document) (key : DKey),
      (ps.foldl (fuseStep k) (f₀, m₀)).1 key
        = f₀ key + ((ps.filter (fun p => dedupKey p.2 = key)).map
            (fun p => 1 / (k + ((p.1 % TOP_K_FINAL + 1 : Nat) : ℚ)))).sum := by
  intro ps
  induction ps with
  | nil => intro f₀ m₀ key; simp
  | cons p t ih =>
    intro f₀ m₀ key
    rw [List.foldl_cons, fuseStep_eq, ih]
    by_cases hk : dedupKey p.2 = key
    · rw [if_pos hk.symm]
      rw [List.filter_cons_of_pos (by simp [hk])]
      simp only [List.map_cons, List.sum_cons]
      ring
    · rw [if_neg (fun hc => hk hc.symm)]
      rw [List.filter_cons_of_neg (by simp [hk])]

theorem fuse_foldl_docmap (k : ℚ) :
    ∀ (ps : List (Nat × Document)) (f₀ : DKey → ℚ) (m₀ : List Document),
      (ps.foldl (fuseStep k) (f₀, m₀)).2
        = m₀ ++ dedupFirstSeenAux (m₀.map dedupKey) (ps.map Prod.snd) := by
  intro ps
  induction ps with
  | nil => intro f₀ m₀; simp [dedupFirstSeenAux]
  | cons p t ih =>
    intro f₀ m₀
    rw [List.map_cons, List.foldl_cons, fuseStep_eq]
    by_cases hmem : dedupKey p.2 ∈ m₀.map dedupKey
    · have hany : (m₀.any (fun d => dedupKey d = dedupKey p.2)) = true := by
        rcases List.mem_map.mp hmem with ⟨d, hd, hkey⟩
        exact List.any_eq_true.mpr ⟨d, hd, by simp [hkey]⟩
      rw [hany]
      simp only [if_true]
      rw [ih]
      simp only [dedupFirstSeenAux]
      rw [if_pos hmem]
    · have hany : (m₀.any (fun d => dedupKey d = dedupKey p.2)) = false := by
        rw [List.any_eq_false]
        intro d hd
        intro hc
        exact hmem (List.mem_map.mpr ⟨d, hd, by simpa using hc⟩)
      rw [hany]
      simp only [Bool.false_eq_true, if_false]
      rw [ih]
      simp only [dedupFirstSeenAux]
      rw [if_neg hmem]
      rw [dedupFirstSeenAux_congr (t.map Prod.snd) ((m₀ ++ [p.2]).map dedupKey)
        (dedupKey p.2 :: m₀.map dedupKey) (fun x => by simp [or_comm])]
      simp

theorem orderedInsert_congr {r s : Document → Document → Prop}
    [DecidableRel r] [DecidableRel s] (h : ∀ a b, r a b ↔ s a b) :
    ∀ (l : List Document) (a : Document), l.orderedInsert r a = l.orderedInsert s a := by
  intro l
  induction l with
  | nil => intro a; rfl
  | cons b t ih =>
    intro a
    simp only [List.orderedInsert]
    by_cases hr : r a b
    · rw [if_pos hr, if_pos ((h a b).mp hr)]
    · rw [if_neg hr, if_neg (fun hc => hr ((h a b).mpr hc)), ih]

theorem insertionSort_congr {r s : Document → Document → Prop}
    [DecidableRel r] [DecidableRel s] (h : ∀ a b, r a b ↔ s a b) :
    ∀ l : List Document, l.insertionSort r = l.insertionSort s := by
  intro l
  induction l with
  | nil => rfl
  | cons a t ih => simp only [List.insertionSort, ih, orderedInsert_congr h]

theorem dedupFirstSeenAux_key_not_seen :
    ∀ (l : List Document) (seen : List DKey) (d : Document),
      d ∈ dedupFirstSeenAux seen l → dedupKey d ∉ seen := by
  intro l
  induction l with
  | nil => intro seen d hd; simp [dedupFirstSeenAux] at hd
  | cons a rest ih =>
    intro seen d hd
    simp only [dedupFirstSeenAux] at hd
    by_cases ha : dedupKey a ∈ seen
    · rw [if_pos ha] at hd
      exact ih seen d hd
    · rw [if_neg ha] at hd
      rcases List.mem_cons.mp hd with rfl | hd'
      · exact ha
      · intro hc
        exact ih _ d hd' (List.mem_cons_of_mem _ hc)

theorem dedupFirstSeenAux_pairwise :
    ∀ (l : List Document) (seen : List DKey),
      (dedupFirstSeenAux seen l).Pairwise (fun a b => dedupKey a ≠ dedupKey b) := by
  intro l
  induction l with
  | nil => intro seen; simp [dedupFirstSeenAux]
  | cons a rest ih =>
    intro seen
    simp only [dedupFirstSeenAux]
    by_cases ha : dedupKey a ∈ seen
    · rw [if_pos ha]; exact ih seen
    · rw [if_neg ha]
      refine List.Pairwise.cons ?_ (ih _)
      intro b hb heq
      apply dedupFirstSeenAux_key_not_seen rest _ b hb
      rw [← heq]
      exact List.mem_cons_self _ _

/-- C1: `fuse_docs` assigns the occurrence at flat index `idx` the rank
`(idx % 5) + 1`, accumulates `score[key] += 1/(60 + rank)` over every
occurrence of the same deduplication key (`chunk_id`, or the content hash
when `chunk_id` is absent), and returns the distinct chunks (first-seen
chunk per key) sorted by descending accumulated score with ties broken by
first-seen order (stable descending sort), truncated to the first
`TOP_K_FUSION = 15`.  Stated as a refinement: the code-side fold equals
the spec-side construction, and the output is sorted and key-distinct. -/
theorem C1_fuse_docs_rrf (all_docs : List Document) :
    fuse_docs all_docs 60
      = ((dedupFirstSeen all_docs).insertionSort
          (fun a b => rrfScoreSpec all_docs 60 (dedupKey b)
            ≤ rrfScoreSpec all_docs 60 (dedupKey a))).take TOP_K_FUSION
    ∧ List.Sorted (fun a b => rrfScoreSpec all_docs 60 (dedupKey b)
          ≤ rrfScoreSpec all_docs 60 (dedupKey a)) (fuse_docs all_docs 60)
    ∧ (fuse_docs all_docs 60).Pairwise (fun a b => dedupKey a ≠ dedupKey b) := by
  have hsc : ∀ key, (all_docs.enum.foldl (fuseStep 60)
      (fun _ => (0 : ℚ), ([] : List Document))).1 key = rrfScoreSpec all_docs 60 key := by
    intro key
    rw [fuse_foldl_score]
    simp [rrfScoreSpec]
  have hdm : (all_docs.enum.foldl (fuseStep 60)
      (fun _ => (0 : ℚ), ([] : List Document))).2 = dedupFirstSeen all_docs := by
    rw [fuse_foldl_docmap]
    simp [dedupFirstSeen, List.enum_map_snd]
  have hiff : ∀ a b,
      ((all_docs.enum.foldl (fuseStep 60)
          (fun _ => (0 : ℚ), ([] : List Document))).1 (dedupKey b)
        ≤ (all_docs.enum.foldl (fuseStep 60)
          (fun _ => (0 : ℚ), ([] : List Document))).1 (dedupKey a))
      ↔ (rrfScoreSpec all_docs 60 (dedupKey b) ≤ rrfScoreSpec all_docs 60 (dedupKey a)) :=
    fun a b => by rw [hsc, hsc]
  have h1 : fuse_docs all_docs 60
      = ((dedupFirstSeen all_docs).insertionSort
          (fun a b => rrfScoreSpec all_docs 60 (dedupKey b)
            ≤ rrfScoreSpec all_docs 60 (dedupKey a))).take TOP_K_FUSION := by
    show (((all_docs.enum.foldl (fuseStep 60)
        (fun _ => (0 : ℚ), ([] : List Document))).2.insertionSort
        (fun a b => (all_docs.enum.foldl (fuseStep 60)
            (fun _ => (0 : ℚ), ([] : List Document))).1 (dedupKey b)
          ≤ (all_docs.enum.foldl (fuseStep 60)
            (fun _ => (0 : ℚ), ([] : List Document))).1 (dedupKey a))).take TOP_K_FUSION)
      = ((dedupFirstSeen all_docs).insertionSort
          (fun a b => rrfScoreSpec all_docs 60 (dedupKey b)
            ≤ rrfScoreSpec all_docs 60 (dedupKey a))).take TOP_K_FUSION
    rw [hdm, insertionSort_congr hiff]
  haveI htot : IsTotal Document (fun a b => rrfScoreSpec all_docs 60 (dedupKey b)
      ≤ rrfScoreSpec all_docs 60 (dedupKey a)) := ⟨fun a b => le_total _ _⟩
  haveI htr : IsTrans Document (fun a b => rrfScoreSpec all_docs 60 (dedupKey b)
      ≤ rrfScoreSpec all_docs 60 (dedupKey a)) :=
    ⟨fun a b c hab hbc => le_trans hbc hab⟩
  refine ⟨h1, ?_, ?_⟩
  · rw [h1]
    exact List.Pairwise.sublist (List.take_sublist _ _)
      (List.sorted_insertionSort _ (dedupFirstSeen all_docs))
  · rw [h1]
    have hperm := List.perm_insertionSort
      (fun a b => rrfScoreSpec all_docs 60 (dedupKey b)
        ≤ rrfScoreSpec all_docs 60 (dedupKey a)) (dedupFirstSeen all_docs)
    have hpw : (dedupFirstSeen all_docs).Pairwise
        (fun a b => dedupKey a ≠ dedupKey b) := dedupFirstSeenAux_pairwise all_docs []
    have hsym : ∀ {x y : Document},
        dedupKey x ≠ dedupKey y → dedupKey y ≠ dedupKey x :=
      fun h hc => h hc.symm
    exact List.Pairwise.sublist (List.take_sublist _ _)
      ((List.Perm.pairwise_iff hsym hperm).mpr hpw)

/-- Witness for the amended C2 at concrete inputs: both caps hold, and
with a duplicate-free nonnegative selection the reranked list is no longer
than the fused candidates. -/
theorem C2_amended_bounds_witness :
    (rerank_docs sixDocs (some [0, 1])).length ≤ TOP_K_FINAL
    ∧ (fuse_docs [dSingle] 60).length ≤ TOP_K_FUSION
    ∧ ((([0, 1] : List Int).Nodup ∧ ∀ j ∈ ([0, 1] : List Int), 0 ≤ j)
        ∧ (rerank_docs sixDocs (some [0, 1])).length ≤ sixDocs.length) := by
  have h := C2_amended_bounds
  exact ⟨h.1 sixDocs (some [0, 1]), h.2.1 [dSingle] 60,
    ⟨by decide, by decide⟩, h.2.2.2 sixDocs [0, 1] (by decide) (by decide)⟩
